import Mathlib

set_option maxRecDepth 40000

/-!
Verification of the argument-coercion, ABI-selection, result-formatting and
CLI-validation logic of the `story-contract-tool` command-line client
(`src/main.go`).  The Go code is shallowly embedded: each Go function or
inline code block is translated into an executable Lean definition, with
`math/big` integers modelled as `Int`/`Nat` and fatal termination
(`log.Fatalf`) modelled as `Option.none`.
-/

/-! ## Characters and whitespace (models of Go `unicode` / `strings` helpers) -/

/-- Models Go `unicode.IsSpace`: ASCII whitespace, Latin-1 NEL and NBSP, and
the Unicode space separators recognised by the Go `unicode` tables. -/
def goIsSpace (c : Char) : Bool :=
  c = ' ' || c = '\t' || c = '\n' || (c.toNat = 11) || (c.toNat = 12) ||
  c = '\r' || (c.toNat = 0x85) || (c.toNat = 0xA0) || (c.toNat = 0x1680) ||
  (0x2000 ≤ c.toNat && c.toNat ≤ 0x200A) || (c.toNat = 0x2028) ||
  (c.toNat = 0x2029) || (c.toNat = 0x202F) || (c.toNat = 0x205F) ||
  (c.toNat = 0x3000)

/-- Models Go `strings.TrimSpace`: drop leading and trailing whitespace. -/
def goTrimSpace (s : String) : String :=
  String.mk (((s.data.dropWhile goIsSpace).reverse.dropWhile goIsSpace).reverse)

/-- Pattern match at the head of a character list: `beginsWith pat cs` holds
iff `pat` is an initial segment of `cs`.  Models Go `strings.HasPrefix`. -/
def beginsWith : List Char → List Char → Bool
  | [], _ => true
  | _ :: _, [] => false
  | p :: ps, c :: cs => p = c && beginsWith ps cs

/-- Models Go `strings.Split(s, ",")` (single-character separator):
`splitCommaAux acc cs` accumulates the current field in reverse in `acc`. -/
def splitCommaAux (acc : List Char) : List Char → List String
  | [] => [String.mk acc.reverse]
  | c :: cs =>
    if c = ',' then String.mk acc.reverse :: splitCommaAux [] cs
    else splitCommaAux (c :: acc) cs

/-- Models Go `strings.Split(s, ",")`. -/
def splitComma (s : String) : List String := splitCommaAux [] s.data

/-! ## Hex addresses (models of go-ethereum `common` helpers) -/

/-- Models go-ethereum `isHexCharacter`. -/
def isHexChar (c : Char) : Bool :=
  ('0' ≤ c && c ≤ '9') || ('a' ≤ c && c ≤ 'f') || ('A' ≤ c && c ≤ 'F')

/-- Models go-ethereum `has0xPrefix`: the string begins with `0x` or `0X`. -/
def has0x : List Char → Bool
  | '0' :: c :: _ => c = 'x' || c = 'X'
  | _ => false

/-- Drop a leading `0x`/`0X` marker if present. -/
def strip0x (cs : List Char) : List Char :=
  if has0x cs then cs.drop 2 else cs

/-- Models go-ethereum `isHex`: even length and all hex characters. -/
def isHexString (cs : List Char) : Bool :=
  cs.length % 2 = 0 && cs.all isHexChar

/-- Models go-ethereum `common.IsHexAddress`: after dropping an optional
`0x`/`0X` marker, exactly 40 hex characters (2 × 20 bytes). -/
def isHexAddress (s : String) : Bool :=
  let cs := strip0x s.data
  cs.length = 2 * 20 && isHexString cs

/-- Numeric value of one hex character (0 for non-hex characters; every use
site is guarded so that only hex characters are passed). -/
def hexDigitVal (c : Char) : Nat :=
  if '0' ≤ c && c ≤ '9' then c.toNat - '0'.toNat
  else if 'a' ≤ c && c ≤ 'f' then c.toNat - 'a'.toNat + 10
  else if 'A' ≤ c && c ≤ 'F' then c.toNat - 'A'.toNat + 10
  else 0

/-- Big-endian value of a hex character string. -/
def hexValue (cs : List Char) : Nat :=
  cs.foldl (fun a c => a * 16 + hexDigitVal c) 0

/-- Models go-ethereum `common.HexToAddress` on inputs accepted by
`common.IsHexAddress` (the only way the program reaches it): drop the
optional `0x`/`0X` marker, decode the hex digits, and keep the low 20 bytes
(`Address.SetBytes` crops from the left). -/
def hexToAddress (s : String) : Nat :=
  hexValue (strip0x s.data) % 2 ^ 160

/-! ## Arbitrary-precision integer parsing (model of `big.Int.SetString`) -/

/-- Digit value accepted by `big.Int.SetString` for bases up to 36:
decimal digits and (case-insensitive) letters. -/
def digitVal (c : Char) : Option Nat :=
  if '0' ≤ c && c ≤ '9' then some (c.toNat - '0'.toNat)
  else if 'a' ≤ c && c ≤ 'z' then some (c.toNat - 'a'.toNat + 10)
  else if 'A' ≤ c && c ≤ 'Z' then some (c.toNat - 'A'.toNat + 10)
  else none

/-- Accumulating digit scan in base `b`: fails on any character that is not
a digit strictly below the base. -/
def parseDigitsAcc (b : Nat) : Nat → List Char → Option Nat
  | acc, [] => some acc
  | acc, c :: cs =>
    match digitVal c with
    | some d => if d < b then parseDigitsAcc b (acc * b + d) cs else none
    | none => none

/-- Nonempty all-digit scan in base `b`. -/
def parseDigits (b : Nat) (cs : List Char) : Option Nat :=
  if cs.isEmpty then none else parseDigitsAcc b 0 cs

/-- Models `new(big.Int).SetString(s, b)` for a fixed base `2 ≤ b ≤ 36`
(the program uses 10 and 16): an optional leading sign followed by at least
one digit of the base, with the whole string consumed. -/
def bigIntSetString (cs : List Char) (b : Nat) : Option Int :=
  match cs with
  | [] => none
  | c :: rest =>
    if c = '+' then (parseDigits b rest).map (fun n => (n : Int))
    else if c = '-' then (parseDigits b rest).map (fun n => -(n : Int))
    else (parseDigits b (c :: rest)).map (fun n => (n : Int))

/-! ## The argument coercer (`main`, src/main.go lines 200–228) -/

/-- A typed argument produced by the coercer: a 20-byte address value, an
arbitrary-precision integer, or the token itself as a string. -/
inductive CoercedArg where
  | addr (a : Nat)
  | int (v : Int)
  | str (s : String)
deriving DecidableEq, Repr

/-- Coercion of one already-trimmed token (`main` loop body).  `none` models
`log.Fatalf` (process termination) on an invalid `0x` hex argument. -/
def coerceToken (arg : String) : Option CoercedArg :=
  if isHexAddress arg then some (.addr (hexToAddress arg))
  else if beginsWith ['0', 'x'] arg.data then
    match bigIntSetString (arg.data.drop 2) 16 with
    | some n => some (.int n)
    | none => none
  else
    match bigIntSetString arg.data 10 with
    | some n => some (.int n)
    | none => some (.str arg)

/-- Coercion of a list of raw comma fields, in order; the first fatal token
aborts the run (models the `for _, arg := range argsList` loop). -/
def coerceTokens : List String → Option (List CoercedArg)
  | [] => some []
  | a :: rest =>
    match coerceToken (goTrimSpace a) with
    | none => none
    | some v => (coerceTokens rest).map (fun vs => v :: vs)

/-- The full argument coercer: an empty `-args` string yields no arguments;
otherwise the string is comma-split and each field trimmed and coerced. -/
def coerceArgs (s : String) : Option (List CoercedArg) :=
  if s = "" then some [] else coerceTokens (splitComma s)

/-! ## Decimal rendering (model of `big.Int.String`) -/

/-- Fuel-driven digit loop: peels decimal digits of `n` from the right onto
`acc`.  The fuel only makes the recursion structural; `n` itself is always
enough fuel. -/
def natDecDigitsGo : Nat → Nat → List Char → List Char
  | 0, n, acc => Nat.digitChar n :: acc
  | fuel + 1, n, acc =>
    if n < 10 then Nat.digitChar n :: acc
    else natDecDigitsGo fuel (n / 10) (Nat.digitChar (n % 10) :: acc)

/-- Decimal digit characters of a natural number, most significant first
(models the decimal rendering used by `big.Int.String`). -/
def natDecDigits (n : Nat) : List Char := natDecDigitsGo n n []

/-- Decimal string of a natural number. -/
def natDecString (n : Nat) : String := String.mk (natDecDigits n)

/-- Models `big.Int.String`: optional minus sign followed by the decimal
digits of the absolute value. -/
def intDecString (v : Int) : String :=
  if v < 0 then "-" ++ natDecString v.natAbs else natDecString v.natAbs

/-! ## The result formatter (`main`, src/main.go lines 240–287) -/

/-- The constant `10^18` built at lines 241–242 (`exp18.Exp(10, 18, nil)`). -/
def exp18 : Int := 10 ^ 18

/-- Fuel-driven padding loop; 18 rounds of fuel always suffice. -/
def padTo18Go : Nat → List Char → List Char
  | 0, s => s
  | fuel + 1, s => if s.length < 18 then padTo18Go fuel ('0' :: s) else s

/-- Models the padding loop `for len(fracStr) < 18 { fracStr = "0" + fracStr }`. -/
def padTo18 (s : List Char) : List Char := padTo18Go 18 s

/-- Models the trim loop that removes trailing `'0'` characters from the
fractional digit string. -/
def stripTrailingZeros (s : List Char) : List Char :=
  (s.reverse.dropWhile (fun c => c = '0')).reverse

/-- The fractional digit string printed by the rescale branch: the decimal
rendering of `v mod 10^18`, left-padded to 18 digits, trailing zeros
stripped. -/
def fracDigits (v : Int) : List Char :=
  stripTrailingZeros (padTo18 (intDecString (v.emod exp18)).data)

/-- Content of the rescale line (after the alignment blanks): either
`= <int>.<frac> (decimal)` or, when the stripped fractional string is
empty, `= <int> (decimal)`.  `Div`/`Mod` on `big.Int` are Euclidean,
modelled by `Int.ediv`/`Int.emod`. -/
def decimalContent (v : Int) : String :=
  let intPart := v.ediv exp18
  let fs := fracDigits v
  if fs.length > 0 then
    "= " ++ intDecString intPart ++ "." ++ String.mk fs ++ " (decimal)"
  else
    "= " ++ intDecString intPart ++ " (decimal)"

/-- A decoded return value, as produced by the go-ethereum call/decode step.
`address` carries the checksummed rendering `common.Address.Hex()` and
`other` carries the `fmt` renderings `%v` and `%T`; those renderings are
produced by external libraries that the program consumes as black boxes. -/
inductive DecodedValue where
  | bigInt (v : Int)
  | strVal (s : String)
  | bytes (bs : List Nat)
  | address (hex : String)
  | boolVal (b : Bool)
  | other (rendered : String) (typeName : String)
deriving DecidableEq, Repr

/-- Two lowercase hex characters for one byte value (`fmt` verb `%x` on a
byte; byte values are below 256). -/
def byteHexChars (b : Nat) : List Char :=
  [Nat.digitChar (b / 16), Nat.digitChar (b % 16)]

/-- Lowercase hex string of a byte sequence (`%x` on a `[]byte`). -/
def bytesHex (bs : List Nat) : String :=
  String.mk (bs.foldr (fun b acc => byteHexChars b ++ acc) [])

/-- First output line of the `switch v := result.(type)` dispatch (the part
printed on the same line as the `Result[i]: ` marker). -/
def formatValueHead : DecodedValue → String
  | .bigInt v => intDecString v ++ " (big.Int)"
  | .strVal s => s ++ " (string)"
  | .bytes bs => "0x" ++ bytesHex bs ++ " (bytes)"
  | .address h => h ++ " (address)"
  | .boolVal b => (if b then "true" else "false") ++ " (bool)"
  | .other r t => r ++ " (type: " ++ t ++ ")"

/-- Extra lines of the dispatch: only the `*big.Int` arm prints a second
line, when the convert flag is set and the value is strictly positive. -/
def formatValueExtra (convert : Bool) : DecodedValue → List String
  | .bigInt v =>
    if convert ∧ 0 < v then ["           " ++ decimalContent v] else []
  | _ => []

/-- All lines printed for the `i`-th result value. -/
def formatResult (convert : Bool) (i : Nat) (v : DecodedValue) : List String :=
  ("Result[" ++ natDecString i ++ "]: " ++ formatValueHead v) ::
    formatValueExtra convert v

/-- The display loop `for i, result := range results`, starting at index `k`. -/
def displayResultsFrom (convert : Bool) (k : Nat) :
    List DecodedValue → List (List String)
  | [] => []
  | v :: vs => formatResult convert k v :: displayResultsFrom convert (k + 1) vs

/-- One line group per decoded result value, indices starting at 0. -/
def displayResults (convert : Bool) (results : List DecodedValue) :
    List (List String) :=
  displayResultsFrom convert 0 results

/-! ## ABI selection (`getContractABI` and `main` lines 174–191) -/

/-- The `ERC20ABI` string constant of src/main.go. -/
def ERC20ABI : String :=
  "[\n\t\t\x7b\"constant\":true,\"inputs\":[],\"name\":\"name\",\"outputs\":[\x7b\"name\":\"\",\"type\":\"string\"\x7d],\"type\":\"function\"\x7d,\n\t\t\x7b\"constant\":true,\"inputs\":[],\"name\":\"symbol\",\"outputs\":[\x7b\"name\":\"\",\"type\":\"string\"\x7d],\"type\":\"function\"\x7d,\n\t\t\x7b\"constant\":true,\"inputs\":[],\"name\":\"decimals\",\"outputs\":[\x7b\"name\":\"\",\"type\":\"uint8\"\x7d],\"type\":\"function\"\x7d,\n\t\t\x7b\"constant\":true,\"inputs\":[],\"name\":\"totalSupply\",\"outputs\":[\x7b\"name\":\"\",\"type\":\"uint256\"\x7d],\"type\":\"function\"\x7d,\n\t\t\x7b\"constant\":true,\"inputs\":[\x7b\"name\":\"_owner\",\"type\":\"address\"\x7d],\"name\":\"balanceOf\",\"outputs\":[\x7b\"name\":\"balance\",\"type\":\"uint256\"\x7d],\"type\":\"function\"\x7d\n\t]"

/-- The `SimpleStorageABI` string constant of src/main.go. -/
def SimpleStorageABI : String :=
  "[\n\t\t\x7b\n\t\t\t\"inputs\": [],\n\t\t\t\"name\": \"retrieve\",\n\t\t\t\"outputs\": [\x7b\"internalType\": \"uint256\", \"name\": \"\", \"type\": \"uint256\"\x7d],\n\t\t\t\"stateMutability\": \"view\",\n\t\t\t\"type\": \"function\"\n\t\t\x7d,\n\t\t\x7b\n\t\t\t\"inputs\": [\x7b\"internalType\": \"uint256\", \"name\": \"num\", \"type\": \"uint256\"\x7d],\n\t\t\t\"name\": \"store\",\n\t\t\t\"outputs\": [],\n\t\t\t\"stateMutability\": \"nonpayable\",\n\t\t\t\"type\": \"function\"\n\t\t\x7d\n\t]"

/-- The `GenericFallbackABI` string constant of src/main.go. -/
def GenericFallbackABI : String :=
  "[\n\t\t\x7b\n\t\t\t\"inputs\": [],\n\t\t\t\"name\": \"FUNCTION_PLACEHOLDER\",\n\t\t\t\"outputs\": [\x7b\"internalType\": \"uint256\", \"name\": \"\", \"type\": \"uint256\"\x7d],\n\t\t\t\"stateMutability\": \"view\",\n\t\t\t\"type\": \"function\"\n\t\t\x7d\n\t]"

/-- Models `getContractABI`: the `switch contractType` in src/main.go. -/
def getContractABI (contractType : String) : String :=
  if contractType = "erc20" then ERC20ABI
  else if contractType = "storage" then SimpleStorageABI
  else GenericFallbackABI

/-- Replace the first occurrence of `pat` in a character list by `rep`
(models Go `strings.Replace(s, old, new, 1)`). -/
def replaceFirstAux (pat rep : List Char) : List Char → List Char
  | [] => []
  | c :: cs =>
    if beginsWith pat (c :: cs) then rep ++ (c :: cs).drop pat.length
    else c :: replaceFirstAux pat rep cs

/-- Models Go `strings.Replace(s, old, new, 1)`. -/
def replaceFirst (s pat rep : String) : String :=
  String.mk (replaceFirstAux pat.data rep.data s.data)

/-- Substring occurrence test, used to state facts about ABI fragments. -/
def containsSub (pat : List Char) : List Char → Bool
  | [] => beginsWith pat []
  | c :: cs => beginsWith pat (c :: cs) || containsSub pat cs

/-- The ABI-string selection of `main` (lines 174–191): a supplied ABI file
is used verbatim; otherwise the type-based ABI is selected, and only for
the tags `generic` and the empty tag is `FUNCTION_PLACEHOLDER` replaced by
the requested function name. -/
def selectAbiString (abiFileContents : Option String)
    (contractType functionName : String) : String :=
  match abiFileContents with
  | some data => data
  | none =>
    let a := getContractABI contractType
    if contractType = "generic" ∨ contractType = "" then
      replaceFirst a "FUNCTION_PLACEHOLDER" functionName
    else a

/-! ## CLI validation (`main`, src/main.go lines 137–164) -/

/-- The parsed command-line flags (all have string or boolean values). -/
structure Flags where
  contractAddr : String
  funcName : String
  rpcURL : String
  contractType : String
  abiFile : String
  args : String
  convert : Bool
  help : Bool
deriving Repr

/-- Outcome of the validation code that runs before any network activity.
`exitHelp` prints the usage text to standard error and exits 0;
`exitError msg usagePrinted code` prints `msg` to standard output
(`fmt.Println`/`fmt.Printf`), prints the usage text to standard error iff
`usagePrinted`, and exits with status `code`; `dial url` proceeds to
`ethclient.Dial(url)`, the first network call. -/
inductive PreflightOutcome where
  | exitHelp
  | exitError (msg : String) (usagePrinted : Bool) (code : Nat)
  | dial (url : String)
deriving DecidableEq, Repr

/-- Models the flag-validation sequence of `main` (lines 137–164): help
check, required-flag checks, address-format check, then the dial. -/
def preflight (f : Flags) : PreflightOutcome :=
  if f.help then .exitHelp
  else if f.contractAddr = "" then
    .exitError "Error: Contract address is required" true 1
  else if f.funcName = "" then
    .exitError "Error: Function name is required" true 1
  else if !(isHexAddress f.contractAddr) then
    .exitError ("Error: Invalid contract address format: " ++ f.contractAddr)
      false 1
  else .dial f.rpcURL

/-! ## Auxiliary value functions used to state round-trip properties -/

/-- Base-10 value of a digit character string (used to state that printed
digit strings denote the intended numbers). -/
def decVal (cs : List Char) : Nat :=
  cs.foldl (fun a c => a * 10 + (c.toNat - '0'.toNat)) 0

/-- Decimal digit character test. -/
def isDecDigit (c : Char) : Bool := '0' ≤ c && c ≤ '9'

/-- Reference (non-fuelled) form of `natDecDigitsGo`, used in proofs. -/
def natDecDigitsRef (n : Nat) : List Char :=
  if _h : n < 10 then [Nat.digitChar n]
  else natDecDigitsRef (n / 10) ++ [Nat.digitChar (n % 10)]
  decreasing_by exact Nat.div_lt_self (by omega) (by omega)

/-- The characters of `GenericFallbackABI` strictly before the
`FUNCTION_PLACEHOLDER` token. -/
def genAbiHead : String := "[\n\t\t\x7b\n\t\t\t\"inputs\": [],\n\t\t\t\"name\": \""

/-- The characters of `GenericFallbackABI` strictly after the
`FUNCTION_PLACEHOLDER` token: a single `uint256` output and `view`
mutability. -/
def genAbiTail : String :=
  "\",\n\t\t\t\"outputs\": [\x7b\"internalType\": \"uint256\", \"name\": \"\", \"type\": \"uint256\"\x7d],\n\t\t\t\"stateMutability\": \"view\",\n\t\t\t\"type\": \"function\"\n\t\t\x7d\n\t]"

/-! ## Spec-side definitions

These definitions are written from the specification text (spec.md §4.2 and
§4.4), not from the Go source; the refinement theorems below compare them
with the source-derived definitions. -/

/-- Written from the spec (§4.2 step 1): a token is a well-formed 20-byte
hex address iff, after an optional case-insensitive `0x` marker, it
consists of exactly 40 hex digits of either case. -/
def specIsAddressToken (s : String) : Bool :=
  let ds := if beginsWith ['0', 'x'] s.data || beginsWith ['0', 'X'] s.data
    then s.data.drop 2 else s.data
  ds.length = 40 && ds.all isHexChar

/-- Written from the spec: the canonical form of a well-formed address
token is the 20-byte value denoted by its 40 hex digits. -/
def specCanonicalAddr (s : String) : Nat :=
  hexValue (if beginsWith ['0', 'x'] s.data || beginsWith ['0', 'X'] s.data
    then s.data.drop 2 else s.data)

/-- Written from the spec (§4.2): the coercion policy in its fixed priority
order — address, `0x`-hex integer (fatal on parse failure), base-10
integer, string verbatim. -/
def specCoerceToken (s : String) : Option CoercedArg :=
  if specIsAddressToken s then some (.addr (specCanonicalAddr s))
  else if beginsWith ['0', 'x'] s.data then
    (bigIntSetString (s.data.drop 2) 16).map CoercedArg.int
  else
    match bigIntSetString s.data 10 with
    | some n => some (.int n)
    | none => some (.str s)

/-- Written from the spec (§4.4): the rescale line content — integer part
is the floor of `v / 10^18`; fractional part is `v mod 10^18` rendered as
exactly 18 digits with leading zeros and then trailing-zero-stripped; if
stripping empties it, only the integer part is printed. -/
def specDecimalContent (v : Int) : String :=
  let ip := Int.fdiv v (10 ^ 18)
  let fp := (Int.fmod v (10 ^ 18)).toNat
  let fs := stripTrailingZeros
    (List.replicate (18 - (natDecDigits fp).length) '0' ++ natDecDigits fp)
  if fs = [] then "= " ++ intDecString ip ++ " (decimal)"
  else "= " ++ intDecString ip ++ "." ++ String.mk fs ++ " (decimal)"

/-! ## Helper lemmas -/

theorem char_and_le_bounds {c lo hi : Char} (h : (lo ≤ c && c ≤ hi) = true) :
    lo.toNat ≤ c.toNat ∧ c.toNat ≤ hi.toNat := by
  simp [Char.le_def] at h
  exact h

theorem hexDigitVal_lt (c : Char) : hexDigitVal c < 16 := by
  unfold hexDigitVal
  split
  case isTrue h =>
    have h' := char_and_le_bounds h
    have e : '0'.toNat = 48 := rfl
    have e2 : '9'.toNat = 57 := rfl
    omega
  case isFalse =>
    split
    case isTrue h =>
      have h' := char_and_le_bounds h
      have e : 'a'.toNat = 97 := rfl
      have e2 : 'f'.toNat = 102 := rfl
      omega
    case isFalse =>
      split
      case isTrue h =>
        have h' := char_and_le_bounds h
        have e : 'A'.toNat = 65 := rfl
        have e2 : 'F'.toNat = 70 := rfl
        omega
      case isFalse => omega

theorem hexValue_acc_lt (cs : List Char) :
    ∀ a : Nat, cs.foldl (fun a c => a * 16 + hexDigitVal c) a <
      (a + 1) * 16 ^ cs.length := by
  induction cs with
  | nil => intro a; simp
  | cons c cs ih =>
    intro a
    simp only [List.foldl_cons, List.length_cons]
    have h1 := ih (a * 16 + hexDigitVal c)
    have hd := hexDigitVal_lt c
    have h2 : (a * 16 + hexDigitVal c + 1) * 16 ^ cs.length ≤
        ((a + 1) * 16) * 16 ^ cs.length :=
      Nat.mul_le_mul_right _ (by omega)
    have h3 : ((a + 1) * 16) * 16 ^ cs.length = (a + 1) * 16 ^ (cs.length + 1) := by
      ring
    omega

theorem hexValue_lt (cs : List Char) : hexValue cs < 16 ^ cs.length := by
  have := hexValue_acc_lt cs 0
  simpa [hexValue] using this

theorem has0x_eq (cs : List Char) :
    has0x cs = (beginsWith ['0', 'x'] cs || beginsWith ['0', 'X'] cs) := by
  match cs with
  | [] => rfl
  | [c] => simp [has0x, beginsWith]
  | c1 :: c2 :: t =>
    by_cases h1 : c1 = '0' <;> by_cases h2 : c2 = 'x' <;>
      by_cases h3 : c2 = 'X' <;> simp [has0x, beginsWith, h1, h2, h3] <;>
      simp [eq_comm, h1, h2, h3]

theorem specIsAddressToken_eq (s : String) :
    specIsAddressToken s = isHexAddress s := by
  unfold specIsAddressToken isHexAddress isHexString strip0x
  rw [has0x_eq]
  set ds := if beginsWith ['0', 'x'] s.data || beginsWith ['0', 'X'] s.data
    then s.data.drop 2 else s.data with hds
  by_cases hl : ds.length = 40
  · simp [hl]
  · simp [hl]

theorem specCanonicalAddr_eq (s : String) (h : isHexAddress s = true) :
    hexToAddress s = specCanonicalAddr s := by
  unfold hexToAddress specCanonicalAddr strip0x
  rw [has0x_eq]
  unfold isHexAddress strip0x at h
  rw [has0x_eq] at h
  set ds := if beginsWith ['0', 'x'] s.data || beginsWith ['0', 'X'] s.data
    then s.data.drop 2 else s.data with hds
  simp only [Bool.and_eq_true, decide_eq_true_eq] at h
  have hlt : hexValue ds < 16 ^ ds.length := hexValue_lt ds
  rw [h.1] at hlt
  have : (16 : Nat) ^ 40 = 2 ^ 160 := by norm_num
  exact Nat.mod_eq_of_lt (by omega)

/-- C1: per-token coercion follows the spec's fixed priority order:
well-formed 20-byte hex address (canonical value), else `0x`-hex integer,
else base-10 integer, else the token verbatim as a string. -/
theorem c1_coercion_priority_order (s : String) :
    coerceToken s = specCoerceToken s := by
  unfold coerceToken specCoerceToken
  rw [specIsAddressToken_eq]
  by_cases h : isHexAddress s = true
  · simp [h, specCanonicalAddr_eq s h]
  · simp only [Bool.not_eq_true] at h
    simp only [h, Bool.false_eq_true, if_false]
    by_cases h2 : beginsWith ['0', 'x'] s.data = true
    · simp only [h2, if_true]
      cases hb : bigIntSetString (s.data.drop 2) 16 <;> simp
    · simp only [Bool.not_eq_true] at h2
      simp [h2]

/-- C4: a `0x`-led token that is not an address is parsed as a base-16
integer; parse failure is fatal (never a silent string fallback). -/
theorem c4_hex_arg_parse_or_fatal (s : String)
    (h1 : isHexAddress s = false)
    (h2 : beginsWith ['0', 'x'] s.data = true) :
    (∀ n : Int, bigIntSetString (s.data.drop 2) 16 = some n →
      coerceToken s = some (.int n)) ∧
    (bigIntSetString (s.data.drop 2) 16 = none → coerceToken s = none) := by
  unfold coerceToken
  simp only [h1, Bool.false_eq_true, if_false, h2, if_true]
  constructor
  · intro n hn
    simp [hn]
  · intro hn
    simp [hn]

theorem c4_witness :
    coerceToken "0x1f" = some (.int 31) ∧ coerceToken "0xzz" = none := by
  constructor
  · exact (c4_hex_arg_parse_or_fatal "0x1f" (by decide) (by decide)).1 31 (by decide)
  · exact (c4_hex_arg_parse_or_fatal "0xzz" (by decide) (by decide)).2 (by decide)

/-- C9: coercion is fatal exactly for `0x`-led tokens that are neither
addresses nor valid base-16 integers after the marker; every token not
beginning with `0x` coerces successfully. -/
theorem c9_coercion_totality :
    (∀ s : String, coerceToken s = none ↔
      (isHexAddress s = false ∧ beginsWith ['0', 'x'] s.data = true ∧
        bigIntSetString (s.data.drop 2) 16 = none)) ∧
    (∀ s : String, beginsWith ['0', 'x'] s.data = false →
      (coerceToken s).isSome = true) := by
  constructor
  · intro s
    unfold coerceToken
    by_cases h : isHexAddress s = true
    · simp [h]
    · simp only [Bool.not_eq_true] at h
      simp only [h, Bool.false_eq_true, if_false, true_and]
      by_cases h2 : beginsWith ['0', 'x'] s.data = true
      · simp only [h2, if_true, true_and]
        cases hb : bigIntSetString (s.data.drop 2) 16 <;> simp [hb]
      · simp only [Bool.not_eq_true] at h2
        simp only [h2, Bool.false_eq_true, if_false]
        cases hb : bigIntSetString s.data 10 <;> simp [hb]
  · intro s h
    unfold coerceToken
    by_cases ha : isHexAddress s = true
    · simp [ha]
    · simp only [Bool.not_eq_true] at ha
      simp only [ha, Bool.false_eq_true, if_false, h]
      cases hb : bigIntSetString s.data 10 <;> simp [hb]

theorem c9_witness : (coerceToken "hello").isSome = true :=
  c9_coercion_totality.2 "hello" (by decide)

theorem coerceTokens_forall2 (ts : List String) (args : List CoercedArg)
    (h : coerceTokens ts = some args) :
    List.Forall₂ (fun t v => coerceToken (goTrimSpace t) = some v) ts args := by
  induction ts generalizing args with
  | nil =>
    simp only [coerceTokens, Option.some.injEq] at h
    subst h
    exact List.Forall₂.nil
  | cons a rest ih =>
    simp only [coerceTokens] at h
    cases hc : coerceToken (goTrimSpace a) with
    | none => rw [hc] at h; exact absurd h (by simp)
    | some v =>
      rw [hc] at h
      cases hr : coerceTokens rest with
      | none => rw [hr] at h; exact absurd h (by simp)
      | some vs =>
        rw [hr] at h
        simp only [Option.map_some', Option.some.injEq] at h
        subst h
        exact List.Forall₂.cons hc (ih vs hr)

/-- C6 (amended): an empty argument string yields an empty sequence, and a
nonempty one yields exactly one typed argument per comma-split token —
including empty tokens — in order, each the coercion of the trimmed token. -/
theorem c6_args_one_per_token :
    coerceArgs "" = some [] ∧
    ∀ (s : String) (args : List CoercedArg), s ≠ "" → coerceArgs s = some args →
      List.Forall₂ (fun t v => coerceToken (goTrimSpace t) = some v)
        (splitComma s) args := by
  constructor
  · rfl
  · intro s args hs h
    unfold coerceArgs at h
    rw [if_neg hs] at h
    exact coerceTokens_forall2 _ _ h

theorem c6_witness :
    List.Forall₂ (fun t v => coerceToken (goTrimSpace t) = some v)
      (splitComma "1,2") [CoercedArg.int 1, CoercedArg.int 2] :=
  c6_args_one_per_token.2 "1,2" [CoercedArg.int 1, CoercedArg.int 2]
    (by decide) (by decide)

theorem c6_counterexample :
    coerceArgs "1,,2" = some [.int 1, .str "", .int 2] ∧
    (coerceArgs "1,,2").map List.length = some 3 ∧
    ((splitComma "1,,2").filter (fun t => !(t == ""))).length = 2 := by
  refine ⟨by decide, by decide, by decide⟩

theorem digitVal_dec {c : Char} (h : isDecDigit c = true) :
    digitVal c = some (c.toNat - '0'.toNat) ∧ c.toNat - '0'.toNat < 10 := by
  unfold isDecDigit at h
  have h' := char_and_le_bounds h
  have e : '0'.toNat = 48 := rfl
  have e2 : '9'.toNat = 57 := rfl
  unfold digitVal
  rw [if_pos h]
  exact ⟨rfl, by omega⟩

theorem parseDigitsAcc_dec (ds : List Char) :
    ∀ acc : Nat, ds.all isDecDigit = true →
      parseDigitsAcc 10 acc ds =
        some (ds.foldl (fun a c => a * 10 + (c.toNat - '0'.toNat)) acc) := by
  induction ds with
  | nil => intro acc _; rfl
  | cons c cs ih =>
    intro acc h
    simp only [List.all_cons, Bool.and_eq_true] at h
    obtain ⟨hdv, hlt⟩ := digitVal_dec h.1
    simp only [parseDigitsAcc, hdv, List.foldl_cons]
    rw [if_pos hlt]
    exact ih _ h.2

theorem parseDigits_dec {ds : List Char} (hne : ds ≠ [])
    (h : ds.all isDecDigit = true) : parseDigits 10 ds = some (decVal ds) := by
  unfold parseDigits decVal
  rw [if_neg (by simpa using hne)]
  exact parseDigitsAcc_dec ds 0 h

theorem decDigit_ne_plus {c : Char} (h : isDecDigit c = true) : ¬(c = '+') := by
  intro e; subst e; exact absurd h (by decide)

theorem decDigit_ne_minus {c : Char} (h : isDecDigit c = true) : ¬(c = '-') := by
  intro e; subst e; exact absurd h (by decide)

/-- C10: every token of an optional sign followed by decimal digits parses
in base 10 to the corresponding signed integer, and a minus-signed digit
token coerces to that integer argument (not to a string). -/
theorem c10_signed_decimal_tokens (ds : List Char) (hne : ds ≠ [])
    (h : ds.all isDecDigit = true) :
    bigIntSetString ds 10 = some ((decVal ds : Int)) ∧
    bigIntSetString ('-' :: ds) 10 = some (-(decVal ds : Int)) ∧
    bigIntSetString ('+' :: ds) 10 = some ((decVal ds : Int)) ∧
    coerceToken (String.mk ('-' :: ds)) = some (.int (-(decVal ds : Int))) := by
  have hparse := parseDigits_dec hne h
  have hplain : bigIntSetString ds 10 = some ((decVal ds : Int)) := by
    match ds, hne with
    | c :: cs, _ =>
      have hc : isDecDigit c = true := by
        simp only [List.all_cons, Bool.and_eq_true] at h; exact h.1
      simp only [bigIntSetString]
      rw [if_neg (decDigit_ne_plus hc), if_neg (decDigit_ne_minus hc), hparse]
      rfl
  refine ⟨hplain, ?_, ?_, ?_⟩
  · simp only [bigIntSetString]
    simp [hparse]
  · simp only [bigIntSetString]
    simp [hparse]
  · have hminus : bigIntSetString ('-' :: ds) 10 = some (-(decVal ds : Int)) := by
      simp only [bigIntSetString]
      simp [hparse]
    have hdata : (String.mk ('-' :: ds)).data = '-' :: ds := rfl
    unfold coerceToken
    rw [hdata]
    have hhex : isHexAddress (String.mk ('-' :: ds)) = false := by
      unfold isHexAddress strip0x
      rw [hdata]
      have h0 : has0x ('-' :: ds) = false := by
        match ds with
        | [] => rfl
        | c :: cs => rfl
      rw [h0]
      simp only [if_false, Bool.false_eq_true]
      have : isHexChar '-' = false := by decide
      simp [isHexString, this]
    rw [hhex]
    simp only [Bool.false_eq_true, if_false]
    have hbw : beginsWith ['0', 'x'] ('-' :: ds) = false := by
      simp [beginsWith]
    rw [hbw]
    simp only [Bool.false_eq_true, if_false]
    rw [hminus]

theorem c10_witness :
    coerceToken (String.mk ('-' :: ['4', '2'])) =
      some (.int (-(decVal ['4', '2'] : Int))) :=
  (c10_signed_decimal_tokens ['4', '2'] (by decide) (by decide)).2.2.2

theorem padTo18Go_eq (fuel : Nat) :
    ∀ s : List Char, 18 ≤ s.length + fuel →
      padTo18Go fuel s = List.replicate (18 - s.length) '0' ++ s := by
  induction fuel with
  | zero =>
    intro s h
    have : 18 - s.length = 0 := by omega
    simp [padTo18Go, this]
  | succ f ih =>
    intro s h
    unfold padTo18Go
    by_cases hl : s.length < 18
    · rw [if_pos hl, ih ('0' :: s) (by simp; omega)]
      have h1 : 18 - s.length = (18 - ('0' :: s).length) + 1 := by
        simp only [List.length_cons]; omega
      rw [h1, List.replicate_succ']
      simp
    · rw [if_neg hl]
      have : 18 - s.length = 0 := by omega
      simp [this]

theorem padTo18_eq (s : List Char) :
    padTo18 s = List.replicate (18 - s.length) '0' ++ s :=
  padTo18Go_eq 18 s (by omega)

theorem natDecDigitsGo_eq_ref (fuel : Nat) :
    ∀ (n : Nat) (acc : List Char), n ≤ fuel →
      natDecDigitsGo fuel n acc = natDecDigitsRef n ++ acc := by
  induction fuel with
  | zero =>
    intro n acc h
    have : n = 0 := by omega
    subst this
    rw [natDecDigitsRef]
    rfl
  | succ f ih =>
    intro n acc h
    unfold natDecDigitsGo
    by_cases h10 : n < 10
    · rw [if_pos h10, natDecDigitsRef, dif_pos h10]
      rfl
    · have hdiv : n / 10 < n := Nat.div_lt_self (by omega) (by omega)
      rw [if_neg h10, ih (n / 10) _ (by omega)]
      conv_rhs => rw [natDecDigitsRef, dif_neg h10]
      simp

theorem natDecDigits_eq_ref (n : Nat) : natDecDigits n = natDecDigitsRef n := by
  have := natDecDigitsGo_eq_ref n n [] le_rfl
  simpa [natDecDigits] using this

theorem decVal_foldl_acc (cs : List Char) :
    ∀ a : Nat, cs.foldl (fun a c => a * 10 + (c.toNat - '0'.toNat)) a =
      a * 10 ^ cs.length + decVal cs := by
  induction cs with
  | nil => intro a; simp [decVal]
  | cons c cs ih =>
    intro a
    simp only [List.foldl_cons, List.length_cons]
    rw [ih (a * 10 + (c.toNat - '0'.toNat))]
    have h2 : decVal (c :: cs) = (c.toNat - '0'.toNat) * 10 ^ cs.length + decVal cs := by
      have hstep : decVal (c :: cs) =
          cs.foldl (fun a c => a * 10 + (c.toNat - '0'.toNat))
            (0 * 10 + (c.toNat - '0'.toNat)) := rfl
      rw [hstep, ih]
      norm_num
    rw [h2]
    ring

theorem decVal_append (xs ys : List Char) :
    decVal (xs ++ ys) = decVal xs * 10 ^ ys.length + decVal ys := by
  unfold decVal
  rw [List.foldl_append]
  exact decVal_foldl_acc ys _

theorem decVal_replicate_zero (k : Nat) : decVal (List.replicate k '0') = 0 := by
  induction k with
  | zero => rfl
  | succ n ih =>
    rw [List.replicate_succ]
    unfold decVal at ih ⊢
    simp only [List.foldl_cons]
    have : 0 * 10 + ('0'.toNat - '0'.toNat) = 0 := by omega
    rw [this]
    exact ih

theorem decVal_leading_zeros (k : Nat) (xs : List Char) :
    decVal (List.replicate k '0' ++ xs) = decVal xs := by
  rw [decVal_append, decVal_replicate_zero]
  ring

theorem decVal_trailing_zeros (xs : List Char) (k : Nat) :
    decVal (xs ++ List.replicate k '0') = decVal xs * 10 ^ k := by
  rw [decVal_append, decVal_replicate_zero, List.length_replicate]
  ring

theorem digitChar_toNat : ∀ d : Nat, d < 10 → (Nat.digitChar d).toNat = 48 + d := by
  decide

theorem decVal_ref_roundtrip (n : Nat) : decVal (natDecDigitsRef n) = n := by
  induction n using Nat.strong_induction_on with
  | _ n ih =>
    rw [natDecDigitsRef]
    by_cases h10 : n < 10
    · rw [dif_pos h10]
      unfold decVal
      simp only [List.foldl_cons, List.foldl_nil]
      rw [digitChar_toNat n h10]
      have : '0'.toNat = 48 := rfl
      omega
    · rw [dif_neg h10]
      have hdiv : n / 10 < n := Nat.div_lt_self (by omega) (by omega)
      rw [decVal_append, ih (n / 10) hdiv]
      have hm : n % 10 < 10 := Nat.mod_lt _ (by omega)
      have : decVal [Nat.digitChar (n % 10)] = n % 10 := by
        unfold decVal
        simp only [List.foldl_cons, List.foldl_nil]
        rw [digitChar_toNat _ hm]
        have : '0'.toNat = 48 := rfl
        omega
      rw [this]
      simp only [List.length_cons, List.length_nil, pow_one]
      omega

theorem decVal_digits (n : Nat) : decVal (natDecDigits n) = n := by
  rw [natDecDigits_eq_ref]
  exact decVal_ref_roundtrip n

theorem natDecDigitsRef_length (n k : Nat) (hn : n < 10 ^ k) (hk : 0 < k) :
    (natDecDigitsRef n).length ≤ k := by
  induction n using Nat.strong_induction_on generalizing k with
  | _ n ih =>
    rw [natDecDigitsRef]
    by_cases h10 : n < 10
    · rw [dif_pos h10]
      simpa using hk
    · rw [dif_neg h10]
      have hdiv : n / 10 < n := Nat.div_lt_self (by omega) (by omega)
      have hk2 : 2 ≤ k := by
        by_contra hc
        have : k = 1 := by omega
        subst this
        simp at hn
        omega
      have hlt : n / 10 < 10 ^ (k - 1) := by
        rw [Nat.div_lt_iff_lt_mul (by omega)]
        have : 10 ^ (k - 1) * 10 = 10 ^ k := by
          have : k - 1 + 1 = k := by omega
          calc 10 ^ (k - 1) * 10 = 10 ^ (k - 1 + 1) := by rw [pow_succ]
          _ = 10 ^ k := by rw [this]
        omega
      have := ih (n / 10) hdiv (k - 1) hlt (by omega)
      simp only [List.length_append, List.length_cons, List.length_nil]
      omega

theorem natDecDigits_length (n k : Nat) (hn : n < 10 ^ k) (hk : 0 < k) :
    (natDecDigits n).length ≤ k := by
  rw [natDecDigits_eq_ref]
  exact natDecDigitsRef_length n k hn hk

theorem stripTrailingZeros_split (s : List Char) :
    s = stripTrailingZeros s ++
        List.replicate (s.length - (stripTrailingZeros s).length) '0' ∧
    (stripTrailingZeros s).length ≤ s.length := by
  have hsplit : s.reverse.takeWhile (fun c => c = '0') ++
      s.reverse.dropWhile (fun c => c = '0') = s.reverse :=
    List.takeWhile_append_dropWhile _ _
  have hrepl : (s.reverse.takeWhile (fun c => c = '0')).reverse =
      List.replicate (s.reverse.takeWhile (fun c => c = '0')).length '0' := by
    have hlr : ((s.reverse.takeWhile (fun c => c = '0')).reverse).length =
        (s.reverse.takeWhile (fun c => c = '0')).length := List.length_reverse _
    rw [← hlr]
    apply List.eq_replicate_length.mpr
    intro b hb
    rw [List.mem_reverse] at hb
    simpa using List.mem_takeWhile_imp hb
  have hs : s = stripTrailingZeros s ++
      (s.reverse.takeWhile (fun c => c = '0')).reverse := by
    conv_lhs => rw [← s.reverse_reverse, ← hsplit]
    rw [List.reverse_append]
    rfl
  have hlen : (stripTrailingZeros s).length +
      (s.reverse.takeWhile (fun c => c = '0')).length = s.length := by
    have := congrArg List.length hs
    simp only [List.length_append, List.length_reverse] at this
    omega
  constructor
  · conv_lhs => rw [hs]
    congr 1
    rw [hrepl]
    congr 1
    omega
  · omega

theorem exp18_lit : exp18 = (1000000000000000000 : Int) := by norm_num [exp18]

theorem intDecString_nonneg {m : Int} (h : 0 ≤ m) :
    intDecString m = natDecString m.toNat := by
  unfold intDecString
  rw [if_neg (by omega)]
  have : m.natAbs = m.toNat := by omega
  rw [this]

theorem decimalContent_eq_spec (v : Int) :
    decimalContent v = specDecimalContent v := by
  have hE : (0 : Int) ≤ 10 ^ 18 := by norm_num
  have hdiv : Int.fdiv v (10 ^ 18) = v.ediv (10 ^ 18) := Int.fdiv_eq_ediv v hE
  have hmod : Int.fmod v (10 ^ 18) = v.emod (10 ^ 18) := Int.fmod_eq_emod v hE
  have hnn : (0 : Int) ≤ v.emod (10 ^ 18) := Int.emod_nonneg v (by norm_num)
  have hdata : ∀ m : Nat, (natDecString m).data = natDecDigits m := fun m => rfl
  simp only [decimalContent, specDecimalContent, fracDigits, exp18]
  rw [hdiv, hmod, intDecString_nonneg hnn]
  simp only [hdata]
  rw [padTo18_eq]
  set fs := stripTrailingZeros
    (List.replicate (18 - (natDecDigits (v.emod (10 ^ 18)).toNat).length) '0' ++
      natDecDigits (v.emod (10 ^ 18)).toNat) with hfs
  by_cases hnil : fs = []
  · simp [hnil]
  · have hpos : 0 < fs.length := List.length_pos.mpr hnil
    simp [hpos, hnil]

/-- C2: with the convert flag set and a strictly positive integer result,
the formatter prints exactly one extra line whose content follows the
spec's rescale formula (floor division by 10^18, 18-digit zero-padded
fraction, trailing zeros stripped, no decimal point when empty). -/
theorem c2_rescale_decimal_line (v : Int) (h : 0 < v) :
    formatValueExtra true (.bigInt v) =
      ["           " ++ specDecimalContent v] := by
  simp only [formatValueExtra]
  rw [if_pos ⟨trivial, h⟩, decimalContent_eq_spec]

theorem c2_witness :
    formatValueExtra true (.bigInt 1500000000000000000) =
      ["           = 1.5 (decimal)"] := by
  rw [c2_rescale_decimal_line 1500000000000000000 (by decide)]
  decide

/-- C3: rescale round-trip — for `v = intPart * 10^18 + fracPart` with
`0 ≤ fracPart < 10^18` and `v > 0`, the printed integer part is `intPart`
and the printed fractional digits, re-padded with the stripped trailing
zeros, denote exactly `fracPart`; a non-positive value never produces the
second line. -/
theorem c3_rescale_roundtrip :
    (∀ ip fp : Int, 0 ≤ fp → fp < exp18 → 0 < ip * exp18 + fp →
      (ip * exp18 + fp).ediv exp18 = ip ∧
      (decVal (fracDigits (ip * exp18 + fp) ++
        List.replicate (18 - (fracDigits (ip * exp18 + fp)).length) '0') : Int)
        = fp) ∧
    (∀ (convert : Bool) (v : Int), v ≤ 0 →
      formatValueExtra convert (.bigInt v) = []) := by
  constructor
  · intro ip fp h0 h1 hpos
    have hE : exp18 = (1000000000000000000 : Int) := exp18_lit
    rw [hE] at h1 hpos
    constructor
    · show (ip * exp18 + fp) / exp18 = ip
      rw [hE]
      omega
    · have hmod : (ip * exp18 + fp).emod exp18 = fp := by
        show (ip * exp18 + fp) % exp18 = fp
        rw [hE]
        omega
      have hpow : (10 : Nat) ^ 18 = 1000000000000000000 := by norm_num
      have htoNat : fp.toNat < 10 ^ 18 := by rw [hpow]; omega
      have hdlen : (natDecDigits fp.toNat).length ≤ 18 :=
        natDecDigits_length _ 18 htoNat (by omega)
      have hfd : fracDigits (ip * exp18 + fp) =
          stripTrailingZeros (List.replicate (18 - (natDecDigits fp.toNat).length) '0' ++
            natDecDigits fp.toNat) := by
        unfold fracDigits
        rw [hmod, intDecString_nonneg h0]
        have hdata : (natDecString fp.toNat).data = natDecDigits fp.toNat := rfl
        rw [hdata, padTo18_eq]
      set padded := List.replicate (18 - (natDecDigits fp.toNat).length) '0' ++
        natDecDigits fp.toNat with hpadded
      have hplen : padded.length = 18 := by
        rw [hpadded]
        simp only [List.length_append, List.length_replicate]
        omega
      obtain ⟨hsp, hle⟩ := stripTrailingZeros_split padded
      have hval : decVal padded = fp.toNat := by
        rw [hpadded, decVal_leading_zeros, decVal_digits]
      rw [hfd]
      set t := stripTrailingZeros padded with ht
      have hk : padded.length - t.length = 18 - t.length := by omega
      have : decVal (t ++ List.replicate (18 - t.length) '0') = fp.toNat := by
        rw [← hk, ← hsp, hval]
      rw [this]
      omega
  · intro convert v hv
    simp only [formatValueExtra]
    rw [if_neg (by rintro ⟨-, h2⟩; omega)]

theorem c3_witness :
    ((1 * exp18 + 500000000000000000).ediv exp18 = 1 ∧
      (decVal (fracDigits (1 * exp18 + 500000000000000000) ++
        List.replicate
          (18 - (fracDigits (1 * exp18 + 500000000000000000)).length) '0') : Int)
        = 500000000000000000) ∧
    formatValueExtra true (.bigInt (-3)) = [] :=
  ⟨c3_rescale_roundtrip.1 1 500000000000000000 (by decide) (by decide) (by decide),
   c3_rescale_roundtrip.2 true (-3) (by decide)⟩

theorem genericAbi_split (fn : String) :
    replaceFirst GenericFallbackABI "FUNCTION_PLACEHOLDER" fn =
      genAbiHead ++ fn ++ genAbiTail := rfl

/-- C5 (amended): with no ABI file, any tag other than `erc20` and
`storage` selects the generic fallback fragment, but the requested function
name is substituted for the placeholder only for the tag `generic` and the
empty tag; any other such tag leaves `FUNCTION_PLACEHOLDER` in place.  The
substituted fragment is the fallback's fixed text around the function name,
declaring a no-argument `view` function with a single `uint256` output. -/
theorem c5_generic_abi_selection (tag fn : String)
    (h1 : tag ≠ "erc20") (h2 : tag ≠ "storage") :
    ((tag = "generic" ∨ tag = "") →
      selectAbiString none tag fn = genAbiHead ++ fn ++ genAbiTail) ∧
    (tag ≠ "generic" → tag ≠ "" →
      selectAbiString none tag fn = GenericFallbackABI) := by
  have habi : getContractABI tag = GenericFallbackABI := by
    unfold getContractABI
    rw [if_neg h1, if_neg h2]
  constructor
  · intro hg
    unfold selectAbiString
    rw [habi, if_pos hg]
    exact genericAbi_split fn
  · intro hg he
    unfold selectAbiString
    rw [habi, if_neg (by rintro (h | h) <;> contradiction)]

theorem c5_witness :
    selectAbiString none "generic" "foo" = genAbiHead ++ "foo" ++ genAbiTail ∧
    selectAbiString none "mytoken" "foo" = GenericFallbackABI :=
  ⟨(c5_generic_abi_selection "generic" "foo" (by decide) (by decide)).1
      (Or.inl rfl),
   (c5_generic_abi_selection "mytoken" "foo" (by decide) (by decide)).2
      (by decide) (by decide)⟩

theorem c5_counterexample :
    selectAbiString none "mytoken" "foo" = GenericFallbackABI ∧
    containsSub "FUNCTION_PLACEHOLDER".data
      (selectAbiString none "mytoken" "foo").data = true ∧
    containsSub "foo".data (selectAbiString none "mytoken" "foo").data = false := by
  refine ⟨by decide, by decide, by decide⟩

theorem displayResultsFrom_length (convert : Bool) (rs : List DecodedValue) :
    ∀ k : Nat, (displayResultsFrom convert k rs).length = rs.length := by
  induction rs with
  | nil => intro k; rfl
  | cons v vs ih =>
    intro k
    simp only [displayResultsFrom, List.length_cons, ih]

theorem displayResultsFrom_getElem (convert : Bool) (rs : List DecodedValue) :
    ∀ (k i : Nat), (displayResultsFrom convert k rs)[i]? =
      (rs[i]?).map (formatResult convert (k + i)) := by
  induction rs with
  | nil => intro k i; simp [displayResultsFrom]
  | cons v vs ih =>
    intro k i
    cases i with
    | zero => simp [displayResultsFrom]
    | succ j =>
      simp only [displayResultsFrom, List.getElem?_cons_succ, ih (k + 1) j]
      have : k + 1 + j = k + (j + 1) := by omega
      rw [this]

/-- C7: the formatter is total — it yields exactly one entry per decoded
value, in input order, each headed by its positional `Result[i]: ` marker,
and unrecognized runtime types are printed with their generic rendering and
type name. -/
theorem c7_formatter_total (convert : Bool) (results : List DecodedValue)
    (i : Nat) :
    (displayResults convert results).length = results.length ∧
    (displayResults convert results)[i]? = (results[i]?).map
      (fun v => ("Result[" ++ natDecString i ++ "]: " ++ formatValueHead v) ::
        formatValueExtra convert v) ∧
    (∀ r t : String, formatValueHead (.other r t) = r ++ " (type: " ++ t ++ ")") := by
  refine ⟨displayResultsFrom_length convert results 0, ?_, fun r t => rfl⟩
  have := displayResultsFrom_getElem convert results 0 i
  simp only [Nat.zero_add] at this
  rw [displayResults, this]
  rfl

/-- C8 (amended): with `-help` unset, a missing `-contract` or `-function`
flag prints an error message (to standard output), prints the usage text to
standard error, and exits with status 1 before any RPC dial; an invalid
`-contract` address likewise exits with status 1 before any dial, but
prints no usage text. -/
theorem c8_preflight_validation (f : Flags) (hh : f.help = false) :
    (f.contractAddr = "" →
      preflight f = .exitError "Error: Contract address is required" true 1) ∧
    (f.contractAddr ≠ "" → f.funcName = "" →
      preflight f = .exitError "Error: Function name is required" true 1) ∧
    (f.contractAddr ≠ "" → f.funcName ≠ "" →
      isHexAddress f.contractAddr = false →
      preflight f =
        .exitError ("Error: Invalid contract address format: " ++ f.contractAddr)
          false 1) := by
  unfold preflight
  rw [if_neg (by simp [hh])]
  refine ⟨fun hc => ?_, fun hc hf => ?_, fun hc hf ha => ?_⟩
  · rw [if_pos hc]
  · rw [if_neg hc, if_pos hf]
  · rw [if_neg hc, if_neg hf, if_pos (by simp [ha])]

theorem c8_witness :
    preflight (Flags.mk "zzz" "f" "u" "generic" "" "" false false) =
      .exitError "Error: Invalid contract address format: zzz" false 1 :=
  (c8_preflight_validation _ rfl).2.2 (by decide) (by decide) (by decide)

theorem c8_counterexample :
    preflight (Flags.mk "" "f" "u" "generic" "" "" false true) = .exitHelp ∧
    preflight (Flags.mk "zzz" "f" "u" "generic" "" "" false false) =
      .exitError "Error: Invalid contract address format: zzz" false 1 := by
  refine ⟨by decide, by decide⟩
